import Mathlib

set_option maxRecDepth 8000

/-!
Shallow embedding of `src/website_monitor_daemon.py` (class `WebsiteMonitor`):
the source adapters (`get_chrome_history`, `get_safari_history`,
`get_firefox_history`), the dedup filter and poll loop of `monitor_browsers`,
and the CSV emission sink (`init_csv_file`, `log_to_csv`), together with
theorems settling the specification claims.
-/

/- ### Title sanitization (`log_to_csv`, line 64)

Python: `title.replace('"', '""').replace('\n', ' ').replace('\r', ' ')`,
guarded by `... if visit_data.get('title') else ''`.
`str.replace` with a one-character pattern replaces every occurrence of that
character by the replacement string. -/

/-- Python `s.replace(pat, rep)` for a one-character pattern `pat`. -/
def pyReplace1 (pat : Char) (rep : List Char) : List Char → List Char
  | [] => []
  | c :: cs => (if c = pat then rep else [c]) ++ pyReplace1 pat rep cs

/-- The title-cleaning chain of `log_to_csv` line 64, on character lists:
`.replace('"','""').replace('\n',' ').replace('\r',' ')`. -/
def sanitizeChars (s : List Char) : List Char :=
  pyReplace1 '\r' [' '] (pyReplace1 '\n' [' '] (pyReplace1 '"' ['"', '"'] s))

/-- `title = ... if visit_data.get('title') else ''`: a falsy (empty) title
becomes the empty string, otherwise the replace chain runs. -/
def sanitizeTitle (s : String) : String :=
  if s = "" then "" else ⟨sanitizeChars s.data⟩

/-- Per-character expansion the spec describes: a double quote is doubled,
newline and carriage return become a space, all else is unchanged. -/
def sanExpand (c : Char) : List Char :=
  if c = '"' then ['"', '"']
  else if c = '\n' ∨ c = '\r' then [' ']
  else [c]

/- ### The CSV layer (Python `csv` module as used by `init_csv_file` and
`log_to_csv`)

The sink writes with `csv.DictWriter` (default dialect: delimiter `,`,
quotechar a double quote, QUOTE_MINIMAL, line terminator CR LF) and reads
back with `csv.DictReader`.  The writer quotes a field iff it contains the
delimiter, the quote character or a line-terminator character, doubling
embedded quote characters; the reader is a character-level state machine
over the whole stream, so quoted fields may contain delimiters and line
breaks. -/

/-- A character forcing QUOTE_MINIMAL quoting: delimiter, quotechar, or
a character of the line terminator CR LF. -/
def specialChar (c : Char) : Bool :=
  c == ',' || c == '"' || c == '\n' || c == '\r'

/-- Does the Python csv writer quote this field under QUOTE_MINIMAL? -/
def needsQuoting (s : List Char) : Bool := s.any specialChar

/-- One serialized field: quoted (with embedded quotes doubled) iff needed. -/
def encodeField (s : List Char) : List Char :=
  if needsQuoting s then '"' :: (pyReplace1 '"' ['"', '"'] s ++ ['"'])
  else s

/-- Join already-encoded fields with the delimiter. -/
def commaJoin : List (List Char) → List Char
  | [] => []
  | [f] => f
  | f :: g :: fs => f ++ ',' :: commaJoin (g :: fs)

/-- One physical CSV record as `csv.writer.writerow` emits it: encoded
fields joined by commas, terminated by CR LF. -/
def encodeRecordLine (fs : List (List Char)) : List Char :=
  commaJoin (fs.map encodeField) ++ ['\r', '\n']

/-- Complete a field: fields are accumulated in reverse character order. -/
def pushField (field : List Char) (row : List (List Char)) : List (List Char) :=
  field.reverse :: row

/-- Complete a row: rows accumulate their fields in reverse order. -/
def pushRow (field : List Char) (row : List (List Char))
    (rows : List (List (List Char))) : List (List (List Char)) :=
  (pushField field row).reverse :: rows

/- The `csv.reader` state machine.  `scanU`: inside an unquoted field (or at
a field boundary); `scanCR`: just consumed a CR that ended a row (a following
LF belongs to the same terminator); `scanQ`: inside a quoted field;
`scanQQ`: just consumed a quote character inside a quoted field (a second
quote is an escaped literal quote, anything else closes the quoting; after
the closing quote the reader keeps appending characters to the same field
until a delimiter or row end, which is also Python's behaviour).  `scanCR`
and `scanQQ` resume unquoted scanning at the current character; that one
resumed step is written out so that every recursive call consumes input.
At end of input a pending nonempty field or row is emitted; end of input
directly after a row terminator adds no extra row. -/
mutual
def scanU (field : List Char) (row : List (List Char))
    (rows : List (List (List Char))) : List Char → List (List (List Char))
  | [] => if field = [] ∧ row = [] then rows.reverse else (pushRow field row rows).reverse
  | c :: cs =>
    if c = ',' then scanU [] (pushField field row) rows cs
    else if c = '\n' then scanU [] [] (pushRow field row rows) cs
    else if c = '\r' then scanCR (pushRow field row rows) cs
    else if c = '"' ∧ field = [] then scanQ [] row rows cs
    else scanU (c :: field) row rows cs
def scanCR (rows : List (List (List Char))) : List Char → List (List (List Char))
  | [] => rows.reverse
  | c :: cs =>
    if c = '\n' then scanU [] [] rows cs
    else if c = ',' then scanU [] (pushField [] []) rows cs
    else if c = '\r' then scanCR (pushRow [] [] rows) cs
    else if c = '"' then scanQ [] [] rows cs
    else scanU [c] [] rows cs
def scanQ (field : List Char) (row : List (List Char))
    (rows : List (List (List Char))) : List Char → List (List (List Char))
  | [] => (pushRow field row rows).reverse
  | c :: cs => if c = '"' then scanQQ field row rows cs else scanQ (c :: field) row rows cs
def scanQQ (field : List Char) (row : List (List Char))
    (rows : List (List (List Char))) : List Char → List (List (List Char))
  | [] => (pushRow field row rows).reverse
  | c :: cs =>
    if c = '"' then scanQ ('"' :: field) row rows cs
    else if c = ',' then scanU [] (pushField field row) rows cs
    else if c = '\n' then scanU [] [] (pushRow field row rows) cs
    else if c = '\r' then scanCR (pushRow field row rows) cs
    else scanU (c :: field) row rows cs
end

/-- `list(csv.reader(stream))` on a whole character stream. -/
def csvParseChars (s : List Char) : List (List (List Char)) :=
  scanU [] [] [] s

/-- The same, with rows of `String` fields. -/
def csvParse (s : List Char) : List (List String) :=
  (csvParseChars s).map (fun r => r.map String.mk)

/-- Serialize rows of `String` fields to a character stream. -/
def renderCsv (rows : List (List String)) : List Char :=
  (rows.map (fun r => encodeRecordLine (r.map String.data))).flatten

/- ### The emission sink (`init_csv_file`, `log_to_csv`) -/

/-- `fieldnames` of `init_csv_file` and `log_to_csv`. -/
def csvHeader : List String :=
  ["timestamp", "browser", "url", "title", "visit_time", "visit_count"]

/-- A `visit_data` dict as built in `monitor_browsers`: Safari rows carry no
`visit_count` key, which `dict.get` then defaults to the empty string. -/
structure Visit where
  browser : String
  url : String
  title : String
  visit_time : String
  visit_count : Option Nat
deriving DecidableEq

/-- `visit_data.get('visit_count', '')`, as the csv writer serializes it. -/
def vcField : Option Nat → String
  | none => ""
  | some n => toString n

/-- The `new_row` dict of `log_to_csv`, in `fieldnames` order; `now` stands
for `datetime.now().isoformat()`. -/
def serRow (now : String) (v : Visit) : List String :=
  [now, v.browser, v.url, sanitizeTitle v.title, v.visit_time, vcField v.visit_count]

/-- The data rows `csv.DictReader` yields: every parsed row after the header
row. -/
def dictRows (file : List Char) : List (List String) :=
  (csvParse file).drop 1

/-- Rebuild one existing row the way `log_to_csv` rewrites it: `DictReader`
zips the file header with the row into a dict, `DictWriter` writes the
values back in `fieldnames` order with `restval` the empty string. -/
def reconsRow (hdr row : List String) : List String :=
  csvHeader.map fun f => ((hdr.zip row).lookup f).getD ""

/-- The full row sequence `log_to_csv` writes on success: header, the new
row first, then every pre-existing data row. -/
def rewrittenRows (now : String) (v : Visit) (file : List Char) : List (List String) :=
  match csvParse file with
  | [] => [csvHeader, serRow now v]
  | hdr :: existing => csvHeader :: serRow now v :: existing.map (reconsRow hdr)

/-- `log_to_csv` success path: read all existing rows, then rewrite the file
as header, new row, prior rows (lines 76 to 89 of the source). -/
def log_to_csv (now : String) (v : Visit) (file : List Char) : List Char :=
  renderCsv (rewrittenRows now v file)

/-- `init_csv_file` on a missing file: write the header row alone. -/
def init_csv_file : List Char :=
  renderCsv [csvHeader]

/-- A sequence of successful emissions, oldest first. -/
def emitAllCsv (vs : List (String × Visit)) (file : List Char) : List Char :=
  vs.foldl (fun f nv => log_to_csv nv.1 nv.2 f) file

/-- Where an exception interrupts `log_to_csv`.  `duringRead`: while reading
the existing file; `atOpenWrite`: reopening the file for writing fails, the
file is untouched; `afterRows k`: the rewrite dies after `k` rows of the new
contents (header included) reached disk - `open(..., 'w')` has already
truncated the file. -/
inductive WriteFailure where
  | duringRead
  | atOpenWrite
  | afterRows (k : Nat)
deriving DecidableEq

/-- `log_to_csv` when the injected failure strikes; the surrounding
`try/except` swallows the exception either way. -/
def log_to_csv_failing (fp : WriteFailure) (now : String) (v : Visit)
    (file : List Char) : List Char :=
  match fp with
  | .duringRead => file
  | .atOpenWrite => file
  | .afterRows k => renderCsv ((rewrittenRows now v file).take k)

/-- The operational-log line of `monitor_browsers` line 246 (the f-string
interpolates the raw, unsanitized fields). -/
def announceLine (v : Visit) : String :=
  "NEW VISIT: " ++ v.browser ++ " - " ++ v.url ++ " - " ++ v.title ++ " - " ++ v.visit_time

/-- The `logger.error` line of the `except` branch of `log_to_csv`. -/
def csvErrorLine : String := "Error writing to CSV"

/-- Sink-side state: the operational log (a line list) and the durable CSV
file contents. -/
structure SinkState where
  opLog : List String
  csvFile : List Char
deriving DecidableEq

/-- Emit one record (lines 245 to 247): announce first, then `log_to_csv`;
an injected write failure is logged and never escapes. -/
def emitOne (fp : Option WriteFailure) (now : String) (v : Visit)
    (st : SinkState) : SinkState :=
  match fp with
  | none => ⟨st.opLog ++ [announceLine v], log_to_csv now v st.csvFile⟩
  | some f => ⟨st.opLog ++ [announceLine v, csvErrorLine],
               log_to_csv_failing f now v st.csvFile⟩

/-- The emission loop over `new_visits`, with a possible injected write
failure per record. -/
def emitList (xs : List (Option WriteFailure × String × Visit))
    (st : SinkState) : SinkState :=
  xs.foldl (fun s x => emitOne x.1 x.2.1 x.2.2 s) st

/- ### Dedup filter and poll loop (`monitor_browsers`) -/

/-- One extracted history tuple as the monitor loop destructures it; Safari
tuples have no visit count. -/
structure HistRow where
  url : String
  title : String
  visit_count : Option Nat
  visit_time : String
deriving DecidableEq

/-- The `visit_data` dict built for a fresh URL. -/
def mkVisit (browser : String) (r : HistRow) : Visit :=
  ⟨browser, r.url, r.title, r.visit_time, r.visit_count⟩

/-- The per-browser loop body (e.g. lines 186 to 195): for each returned row,
if the url is not in `seen_urls`, collect a visit and add the url. -/
def collectRows (browser : String) :
    List HistRow → List String → List Visit × List String
  | [], seen => ([], seen)
  | r :: rest, seen =>
    if r.url ∈ seen then collectRows browser rest seen
    else
      let p := collectRows browser rest (r.url :: seen)
      (mkVisit browser r :: p.1, p.2)

/-- All sources of one poll cycle, in program order (Chrome, Safari, the
Firefox profiles, Edge), threading `seen_urls` through. -/
def collectSources :
    List (String × List HistRow) → List String → List Visit × List String
  | [], seen => ([], seen)
  | s :: more, seen =>
    let p := collectRows s.1 s.2 seen
    let q := collectSources more p.2
    (p.1 ++ q.1, q.2)

/-- One iteration's input: the per-source extraction results, and whether an
exception interrupts the iteration after this many sources were processed
(before the emission loop runs). -/
structure CycleInput where
  sources : List (String × List HistRow)
  failsAfter : Option Nat

/-- One pass of the `while self.running` body: on an uninterrupted iteration
the collected visits are emitted; on an interrupted one the `except` branch
skips emission, but `seen_urls` keeps the urls already added in place. -/
def runCycle (c : CycleInput) (seen : List String) : List Visit × List String :=
  match c.failsAfter with
  | none => collectSources c.sources seen
  | some k => ([], (collectSources (c.sources.take k) seen).2)

/-- All emissions of a run, `seen_urls` threaded across iterations. -/
def runDaemon : List CycleInput → List String → List Visit
  | [], _ => []
  | c :: cs, seen => (runCycle c seen).1 ++ runDaemon cs (runCycle c seen).2

/-- The `seen_urls` state after a run. -/
def daemonSeen : List CycleInput → List String → List String
  | [], seen => seen
  | c :: cs, seen => daemonSeen cs (runCycle c seen).2

/-- How many emitted records carry url `u`. -/
def countUrl (u : String) (vs : List Visit) : Nat :=
  vs.countP (fun v => v.url == u)

/- ### Timestamp epochs (the three SQL queries) -/

/-- Proleptic Gregorian leap year. -/
def isLeapYear (y : Nat) : Bool :=
  (y % 4 == 0 && y % 100 != 0) || y % 400 == 0

/-- Days in year `y`. -/
def daysInYear (y : Nat) : Nat := if isLeapYear y then 366 else 365

/-- Days from the calendar origin to January 1 of year `y`. -/
def daysBeforeYear (y : Nat) : Nat :=
  ((List.range y).map daysInYear).sum

/-- Unix seconds of January 1 of year `y` at midnight UTC: what SQLite's
`strftime('%s', ...)` returns for that date. -/
def secondsFromUnixEpochTo (y : Nat) : Int :=
  ((daysBeforeYear y : Int) - (daysBeforeYear 1970 : Int)) * 86400

/-- The Chromium query, line 104: `last_visit_time/1000000 +
strftime('%s','1601-01-01')`, then rendered by `datetime(..., 'unixepoch')`;
integer division, microseconds since the 1601-01-01 origin. -/
def chromeVisitTimeToUnix (t : Nat) : Int :=
  (↑(t / 1000000) : Int) + secondsFromUnixEpochTo 1601

/-- The WebKit query, line 131: `visit_time + 978307200`, seconds since the
2001-01-01 origin. -/
def safariVisitTimeToUnix (t : Nat) : Int :=
  (t : Int) + 978307200

/-- The Gecko query, line 159: `last_visit_date/1000000`, microseconds since
the Unix epoch. -/
def firefoxVisitTimeToUnix (t : Nat) : Int :=
  (↑(t / 1000000) : Int)

/- ### The source stores and the SQL queries -/

/-- A row of the Chromium `urls` table (the columns the query touches). -/
structure ChromeUrlRow where
  url : String
  title : String
  visit_count : Nat
  last_visit_time : Nat
deriving DecidableEq

/-- A joined row of Safari `history_items` and `history_visits`. -/
structure SafariVisitRow where
  url : String
  title : String
  visit_time : Nat
deriving DecidableEq

/-- A row of the Firefox `moz_places` table; `last_visit_date` is nullable. -/
structure MozPlaceRow where
  url : String
  title : String
  visit_count : Nat
  last_visit_date : Option Nat
deriving DecidableEq

/-- `ORDER BY key DESC LIMIT cap`. -/
def selectTop {α : Type} (key : α → Nat) (cap : Nat) (l : List α) : List α :=
  (l.insertionSort (fun a b => key b ≤ key a)).take cap

/-- The rows the Chromium query considers: `ORDER BY last_visit_time DESC
LIMIT 100` over the whole table. -/
def chromeSelected (store : List ChromeUrlRow) : List ChromeUrlRow :=
  selectTop (fun r => r.last_visit_time) 100 store

/-- The Chromium query result tuples `(url, title, visit_count, visit_time)`. -/
def chromeQuery (store : List ChromeUrlRow) : List (String × String × Nat × Int) :=
  (chromeSelected store).map fun r =>
    (r.url, r.title, r.visit_count, chromeVisitTimeToUnix r.last_visit_time)

/-- The rows the WebKit query considers: `ORDER BY visit_time DESC LIMIT 100`. -/
def safariSelected (store : List SafariVisitRow) : List SafariVisitRow :=
  selectTop (fun r => r.visit_time) 100 store

/-- The WebKit query result tuples `(url, title, visit_time)`. -/
def safariQuery (store : List SafariVisitRow) : List (String × String × Int) :=
  (safariSelected store).map fun r =>
    (r.url, r.title, safariVisitTimeToUnix r.visit_time)

/-- `WHERE last_visit_date IS NOT NULL`. -/
def firefoxQualifying (store : List MozPlaceRow) : List MozPlaceRow :=
  store.filter (fun r => r.last_visit_date.isSome)

/-- The rows the Gecko query considers: the qualifying rows, `ORDER BY
last_visit_date DESC LIMIT 100`. -/
def firefoxSelected (store : List MozPlaceRow) : List MozPlaceRow :=
  selectTop (fun r => r.last_visit_date.getD 0) 100 (firefoxQualifying store)

/-- The Gecko query result tuples `(url, title, visit_count, visit_time)`. -/
def firefoxQuery (store : List MozPlaceRow) : List (String × String × Nat × Int) :=
  (firefoxSelected store).map fun r =>
    (r.url, r.title, r.visit_count, firefoxVisitTimeToUnix (r.last_visit_date.getD 0))

/- ### Adapter bodies (snapshot lifecycle, error handling) -/

/-- What can go wrong inside an adapter body: `shutil.copy2` raising (no
snapshot is created), or the connect/execute/fetch of the snapshot raising
(the snapshot is already on disk). -/
structure AdapterEnv where
  copyFails : Bool
  queryFails : Bool
deriving DecidableEq

/-- What an adapter invocation leaves behind: the returned rows, whether the
scratch snapshot file still exists on return, and whether the `except`
branch logged an error. -/
structure AdapterOutcome (ρ : Type) where
  rows : List ρ
  tempExistsAfter : Bool
  errorLogged : Bool
deriving DecidableEq

/-- The shared `try/except` body of the three adapters: copy the store to the
scratch path, query the snapshot, `os.remove` the snapshot, return the rows;
any exception jumps to the `except` branch, which logs and returns the empty
list without reaching `os.remove`. -/
def runAdapterBody {σ ρ : Type} (env : AdapterEnv) (query : List σ → List ρ)
    (store : List σ) : AdapterOutcome ρ :=
  if env.copyFails then
    -- `shutil.copy2` raised: no snapshot; except branch returns []
    ⟨[], false, true⟩
  else if env.queryFails then
    -- the snapshot exists; the exception skips `os.remove(temp_path)`
    ⟨[], true, true⟩
  else
    -- success: rows fetched, snapshot removed before return
    ⟨query store, false, false⟩

/-- `get_chrome_history` (lines 94 to 118; also used for Edge). -/
def get_chrome_history (env : AdapterEnv) (store : List ChromeUrlRow) :
    AdapterOutcome (String × String × Nat × Int) :=
  runAdapterBody env chromeQuery store

/-- `get_safari_history` (lines 120 to 146). -/
def get_safari_history (env : AdapterEnv) (store : List SafariVisitRow) :
    AdapterOutcome (String × String × Int) :=
  runAdapterBody env safariQuery store

/-- `get_firefox_history` (lines 148 to 174). -/
def get_firefox_history (env : AdapterEnv) (store : List MozPlaceRow) :
    AdapterOutcome (String × String × Nat × Int) :=
  runAdapterBody env firefoxQuery store

/- ### Concrete inputs for the witnesses -/

/-- A 150-row Chromium store, timestamps 0 to 149. -/
def wChromeStore : List ChromeUrlRow :=
  (List.range 150).map fun i => ⟨"u", "t", 1, i⟩

/-- A 150-row Firefox store, timestamps 0 to 149, all non-null. -/
def wMozStore : List MozPlaceRow :=
  (List.range 150).map fun i => ⟨"u", "t", 1, some i⟩

/-- A 150-row Safari store, timestamps 0 to 149. -/
def wSafariStore : List SafariVisitRow :=
  (List.range 150).map fun i => ⟨"u", "t", i⟩

/-- The oldest row of `wChromeStore`. -/
def wOldChrome : ChromeUrlRow := ⟨"u", "t", 1, 0⟩

/-- A history row for the dedup witnesses. -/
def wRow : HistRow := ⟨"http://a.com", "A", some 1, "2024-01-01T00:00:00"⟩

/-- A visit for the sink witnesses. -/
def wVisit : Visit := ⟨"Chrome", "http://a.com", "A", "07:00", some 1⟩

/-- A six-field data row for the sink witnesses. -/
def wDataRow : List String :=
  ["06:00", "Safari", "http://b.com", "B", "05:00", ""]

/- ### Lemmas: sanitization -/

theorem pyReplace1_append (pat : Char) (rep : List Char) (a b : List Char) :
    pyReplace1 pat rep (a ++ b) = pyReplace1 pat rep a ++ pyReplace1 pat rep b := by
  induction a with
  | nil => rfl
  | cons c cs ih => simp [pyReplace1, ih]

theorem sanitizeChars_cons (c : Char) (s : List Char) :
    sanitizeChars (c :: s) = sanExpand c ++ sanitizeChars s := by
  show pyReplace1 '\r' [' '] (pyReplace1 '\n' [' ']
      (pyReplace1 '"' ['"', '"'] (c :: s))) = _
  rw [show pyReplace1 '"' ['"', '"'] (c :: s)
        = (if c = '"' then ['"', '"'] else [c]) ++ pyReplace1 '"' ['"', '"'] s from rfl,
    pyReplace1_append, pyReplace1_append]
  by_cases h1 : c = '"'
  · simp [h1, sanExpand, pyReplace1, sanitizeChars]
  · by_cases h2 : c = '\n'
    · simp [h1, h2, sanExpand, pyReplace1, sanitizeChars]
    · by_cases h3 : c = '\r'
      · simp [h1, h2, h3, sanExpand, pyReplace1, sanitizeChars]
      · simp [h1, h2, h3, sanExpand, pyReplace1, sanitizeChars]

theorem sanitizeChars_eq_flatMap (s : List Char) :
    sanitizeChars s = s.flatMap sanExpand := by
  induction s with
  | nil => rfl
  | cons c cs ih => rw [sanitizeChars_cons, ih, List.flatMap_cons]

/- ### Lemmas: calendar arithmetic -/

theorem daysBeforeYear_succ (n : Nat) :
    daysBeforeYear (n + 1) = daysBeforeYear n + daysInYear n := by
  simp [daysBeforeYear, List.range_succ]

theorem daysBeforeYear_closed (y : Nat) :
    daysBeforeYear y = 365 * y + ((y + 3) / 4 - (y + 99) / 100 + (y + 399) / 400) := by
  induction y with
  | zero => rfl
  | succ n ih =>
    rw [daysBeforeYear_succ, ih, daysInYear, isLeapYear]
    by_cases h4 : n % 4 = 0 <;> by_cases h100 : n % 100 = 0 <;>
      by_cases h400 : n % 400 = 0 <;> simp [h4, h100, h400] <;> omega

theorem daysBeforeYear_1601 : daysBeforeYear 1601 = 584754 := by
  rw [daysBeforeYear_closed]

theorem daysBeforeYear_1970 : daysBeforeYear 1970 = 719528 := by
  rw [daysBeforeYear_closed]

theorem daysBeforeYear_2001 : daysBeforeYear 2001 = 730851 := by
  rw [daysBeforeYear_closed]

theorem secondsFromUnixEpochTo_1601 : secondsFromUnixEpochTo 1601 = -11644473600 := by
  rw [secondsFromUnixEpochTo, daysBeforeYear_1601, daysBeforeYear_1970]
  norm_num

theorem secondsFromUnixEpochTo_2001 : secondsFromUnixEpochTo 2001 = 978307200 := by
  rw [secondsFromUnixEpochTo, daysBeforeYear_2001, daysBeforeYear_1970]
  norm_num

/- ### Claim C5 -/

/-- C5: the sanitization applied to titles before serialization doubles each
embedded double quote and replaces each embedded newline and carriage return
by a space (and leaves every other character unchanged); in particular the
title consisting of `He said "hi"`, a newline, and `bye` becomes
`He said ""hi""`, a space, and `bye`. -/
theorem C5_title_sanitization :
    (∀ s : List Char, sanitizeChars s = s.flatMap sanExpand) ∧
    sanitizeTitle "He said \"hi\"\nbye" = "He said \"\"hi\"\" bye" := by
  refine ⟨sanitizeChars_eq_flatMap, ?_⟩
  decide

/- ### Claim C9 -/

/-- C9: the three families convert their native timestamps to a common
absolute convention using each family's own epoch and unit: the Chromium
value is microseconds since a 1601-01-01 origin (the query shifts by
`strftime('%s','1601-01-01')`, which is -11644473600, the 1601 origin in
Unix seconds per the Gregorian day count), the WebKit value is seconds since
a 2001-01-01 origin (offset 978307200, the Unix seconds of 2001-01-01), and
the Gecko value is microseconds since the Unix epoch. -/
theorem C9_epoch_conversions :
    (∀ s : Nat, chromeVisitTimeToUnix (1000000 * s) = (s : Int) - 11644473600) ∧
    secondsFromUnixEpochTo 1601 = -11644473600 ∧
    (∀ s : Nat, safariVisitTimeToUnix s = (s : Int) + secondsFromUnixEpochTo 2001) ∧
    secondsFromUnixEpochTo 2001 = 978307200 ∧
    (∀ s : Nat, firefoxVisitTimeToUnix (1000000 * s) = (s : Int)) := by
  refine ⟨?_, secondsFromUnixEpochTo_1601, ?_, secondsFromUnixEpochTo_2001, ?_⟩
  · intro s
    rw [chromeVisitTimeToUnix, Nat.mul_div_cancel_left s (by norm_num : 0 < 1000000),
      secondsFromUnixEpochTo_1601]
    ring
  · intro s
    rw [safariVisitTimeToUnix, secondsFromUnixEpochTo_2001]
  · intro s
    rw [firefoxVisitTimeToUnix, Nat.mul_div_cancel_left s (by norm_num : 0 < 1000000)]

/- ### Lemmas: ORDER BY key DESC LIMIT cap -/

theorem selectTop_length {α : Type} (key : α → Nat) (cap : Nat) (l : List α) :
    (selectTop key cap l).length = min cap l.length := by
  rw [selectTop, List.length_take, (List.perm_insertionSort _ l).length_eq]

theorem selectTop_sorted {α : Type} (key : α → Nat) (cap : Nat) (l : List α) :
    List.Sorted (fun a b => key b ≤ key a) (selectTop key cap l) := by
  haveI : IsTotal α (fun a b => key b ≤ key a) := ⟨fun a b => le_total (key b) (key a)⟩
  haveI : IsTrans α (fun a b => key b ≤ key a) := ⟨fun _ _ _ h1 h2 => le_trans h2 h1⟩
  exact List.Pairwise.sublist (List.take_sublist _ _) (List.sorted_insertionSort _ l)

theorem selectTop_subset {α : Type} (key : α → Nat) (cap : Nat) (l : List α) :
    ∀ y ∈ selectTop key cap l, y ∈ l := by
  intro y hy
  exact (List.perm_insertionSort (fun a b => key b ≤ key a) l).subset
    (List.take_subset _ _ hy)

theorem selectTop_beyond {α : Type} (key : α → Nat) (cap : Nat) (l : List α) :
    ∀ x ∈ l, x ∉ selectTop key cap l → ∀ y ∈ selectTop key cap l, key x ≤ key y := by
  intro x hx hnx y hy
  haveI : IsTotal α (fun a b => key b ≤ key a) := ⟨fun a b => le_total (key b) (key a)⟩
  haveI : IsTrans α (fun a b => key b ≤ key a) := ⟨fun _ _ _ h1 h2 => le_trans h2 h1⟩
  have hs : List.Pairwise (fun a b => key b ≤ key a)
      (List.insertionSort (fun a b => key b ≤ key a) l) :=
    List.sorted_insertionSort _ l
  have hsplit : List.insertionSort (fun a b => key b ≤ key a) l
      = selectTop key cap l
        ++ (List.insertionSort (fun a b => key b ≤ key a) l).drop cap :=
    (List.take_append_drop cap _).symm
  have hxf : x ∈ List.insertionSort (fun a b => key b ≤ key a) l :=
    (List.perm_insertionSort _ l).mem_iff.mpr hx
  have hxd : x ∈ (List.insertionSort (fun a b => key b ≤ key a) l).drop cap := by
    rcases List.mem_append.mp (hsplit ▸ hxf) with h | h
    · exact absurd h hnx
    · exact h
  rw [hsplit] at hs
  exact (List.pairwise_append.mp hs).2.2 y hy x hxd

/- ### Claim C7 -/

/-- C7: each adapter query considers exactly the `LIMIT 100` rows with the
most recent native timestamps among the qualifying rows (all rows for the
Chromium and WebKit stores; for the Gecko store those with non-null
`last_visit_date`), ordered most-recent first; when at least 100 rows
qualify, exactly 100 rows are considered, and any qualifying row outside
the result has a timestamp no larger than every returned row. -/
theorem C7_limit_100_most_recent :
    (∀ store : List ChromeUrlRow,
      (100 ≤ store.length → (chromeSelected store).length = 100) ∧
      List.Sorted (fun a b => b.last_visit_time ≤ a.last_visit_time) (chromeSelected store) ∧
      (∀ y ∈ chromeSelected store, y ∈ store) ∧
      (∀ x ∈ store, x ∉ chromeSelected store →
        ∀ y ∈ chromeSelected store, x.last_visit_time ≤ y.last_visit_time)) ∧
    (∀ store : List SafariVisitRow,
      (100 ≤ store.length → (safariSelected store).length = 100) ∧
      List.Sorted (fun a b => b.visit_time ≤ a.visit_time) (safariSelected store) ∧
      (∀ y ∈ safariSelected store, y ∈ store) ∧
      (∀ x ∈ store, x ∉ safariSelected store →
        ∀ y ∈ safariSelected store, x.visit_time ≤ y.visit_time)) ∧
    (∀ store : List MozPlaceRow,
      (100 ≤ (firefoxQualifying store).length → (firefoxSelected store).length = 100) ∧
      List.Sorted (fun a b => b.last_visit_date.getD 0 ≤ a.last_visit_date.getD 0)
        (firefoxSelected store) ∧
      (∀ y ∈ firefoxSelected store, y ∈ firefoxQualifying store) ∧
      (∀ x ∈ firefoxQualifying store, x ∉ firefoxSelected store →
        ∀ y ∈ firefoxSelected store,
          x.last_visit_date.getD 0 ≤ y.last_visit_date.getD 0)) := by
  refine ⟨fun store => ⟨fun h => ?_, selectTop_sorted _ _ _, selectTop_subset _ _ _,
      selectTop_beyond _ _ _⟩,
    fun store => ⟨fun h => ?_, selectTop_sorted _ _ _, selectTop_subset _ _ _,
      selectTop_beyond _ _ _⟩,
    fun store => ⟨fun h => ?_, selectTop_sorted _ _ _, selectTop_subset _ _ _,
      selectTop_beyond _ _ _⟩⟩
  · rw [chromeSelected, selectTop_length]; omega
  · rw [safariSelected, selectTop_length]; omega
  · rw [firefoxSelected, selectTop_length]; omega

/-- C7 witness: on the 150-row stores the caps bind and exactly 100 rows are
considered; the oldest Chromium row is in the store but never returned, and
its timestamp is at most every returned one. -/
theorem C7_limit_100_most_recent_witness :
    (100 ≤ wChromeStore.length ∧ (chromeSelected wChromeStore).length = 100) ∧
    (100 ≤ wSafariStore.length ∧ (safariSelected wSafariStore).length = 100) ∧
    (100 ≤ (firefoxQualifying wMozStore).length ∧ (firefoxSelected wMozStore).length = 100) ∧
    (wOldChrome ∈ wChromeStore ∧ wOldChrome ∉ chromeSelected wChromeStore ∧
      ∀ y ∈ chromeSelected wChromeStore, wOldChrome.last_visit_time ≤ y.last_visit_time) :=
  ⟨⟨by decide, (C7_limit_100_most_recent.1 wChromeStore).1 (by decide)⟩,
   ⟨by decide, (C7_limit_100_most_recent.2.1 wSafariStore).1 (by decide)⟩,
   ⟨by decide, (C7_limit_100_most_recent.2.2 wMozStore).1 (by decide)⟩,
   ⟨by decide, by decide,
    (C7_limit_100_most_recent.1 wChromeStore).2.2.2 wOldChrome (by decide) (by decide)⟩⟩

/- ### Lemmas: the dedup filter -/

theorem collectRows_seen_subset (b : String) (rows : List HistRow) (seen : List String) :
    seen ⊆ (collectRows b rows seen).2 := by
  induction rows generalizing seen with
  | nil => exact fun x hx => hx
  | cons r rest ih =>
    by_cases h : r.url ∈ seen
    · simpa [collectRows, h] using ih seen
    · simp only [collectRows, if_neg h]
      exact fun x hx => ih (r.url :: seen) (List.mem_cons_of_mem _ hx)

theorem collectRows_count (b : String) (rows : List HistRow) (seen : List String) (u : String) :
    countUrl u (collectRows b rows seen).1 + (if u ∈ seen then 1 else 0)
      = (if u ∈ (collectRows b rows seen).2 then 1 else 0) := by
  induction rows generalizing seen with
  | nil => simp [collectRows, countUrl]
  | cons r rest ih =>
    by_cases h : r.url ∈ seen
    · simp only [collectRows, if_pos h]
      exact ih seen
    · simp only [collectRows, if_neg h]
      have hrec := ih (r.url :: seen)
      by_cases hu : u = r.url
      · subst hu
        rw [if_pos (List.mem_cons_self r.url seen)] at hrec
        simp only [countUrl, List.countP_cons, mkVisit, beq_self_eq_true, if_pos,
          if_neg h] at hrec ⊢
        omega
      · have hne : ((mkVisit b r).url == u) = false := by
          simp only [mkVisit]
          exact beq_eq_false_iff_ne.mpr (fun e => hu e.symm)
        simp only [List.mem_cons, hu, false_or] at hrec
        simp only [countUrl, List.countP_cons, hne]
        simp only [countUrl] at hrec
        simpa using hrec

theorem collectSources_seen_subset (srcs : List (String × List HistRow)) (seen : List String) :
    seen ⊆ (collectSources srcs seen).2 := by
  induction srcs generalizing seen with
  | nil => exact fun x hx => hx
  | cons s more ih =>
    simp only [collectSources]
    exact fun x hx => ih _ (collectRows_seen_subset s.1 s.2 seen hx)

theorem collectSources_count (srcs : List (String × List HistRow)) (seen : List String)
    (u : String) :
    countUrl u (collectSources srcs seen).1 + (if u ∈ seen then 1 else 0)
      = (if u ∈ (collectSources srcs seen).2 then 1 else 0) := by
  induction srcs generalizing seen with
  | nil => simp [collectSources, countUrl]
  | cons s more ih =>
    simp only [collectSources, countUrl, List.countP_append]
    have h1 := collectRows_count s.1 s.2 seen u
    have h2 := ih (collectRows s.1 s.2 seen).2
    simp only [countUrl] at h1 h2
    omega

theorem runCycle_count_le (c : CycleInput) (seen : List String) (u : String) :
    countUrl u (runCycle c seen).1 + (if u ∈ seen then 1 else 0)
      ≤ (if u ∈ (runCycle c seen).2 then 1 else 0) := by
  match hc : c.failsAfter with
  | none =>
    simp only [runCycle, hc]
    exact le_of_eq (collectSources_count c.sources seen u)
  | some k =>
    simp only [runCycle, hc, countUrl, List.countP_nil]
    by_cases h : u ∈ seen
    · have hs : u ∈ (collectSources (c.sources.take k) seen).2 :=
        collectSources_seen_subset _ _ h
      simp [h, hs]
    · simp only [if_neg h, Nat.add_zero, Nat.zero_add]
      exact Nat.zero_le _

theorem runDaemon_count_le (cs : List CycleInput) (seen : List String) (u : String) :
    countUrl u (runDaemon cs seen) + (if u ∈ seen then 1 else 0)
      ≤ (if u ∈ daemonSeen cs seen then 1 else 0) := by
  induction cs generalizing seen with
  | nil => simp [runDaemon, daemonSeen, countUrl]
  | cons c rest ih =>
    simp only [runDaemon, daemonSeen, countUrl, List.countP_append]
    have h1 := runCycle_count_le c seen u
    have h2 := ih (runCycle c seen).2
    simp only [countUrl] at h1 h2
    omega

theorem runDaemon_append (xs ys : List CycleInput) (seen : List String) :
    runDaemon (xs ++ ys) seen = runDaemon xs seen ++ runDaemon ys (daemonSeen xs seen) := by
  induction xs generalizing seen with
  | nil => simp [runDaemon, daemonSeen]
  | cons c rest ih => simp [runDaemon, daemonSeen, ih, List.append_assoc]

theorem mem_countUrl_pos (v : Visit) (vs : List Visit) (hv : v ∈ vs) :
    0 < countUrl v.url vs :=
  List.countP_pos_iff.mpr ⟨v, hv, by simp⟩

/- ### Claim C1 -/

/-- C1: across all poll cycles and all sources of a single run, a record with
a given url is emitted at most once: the membership-test-and-insert on
`seen_urls` lets a url through at most once per process lifetime. -/
theorem C1_url_emitted_at_most_once (cycles : List CycleInput) (u : String) :
    countUrl u (runDaemon cycles []) ≤ 1 := by
  have h := runDaemon_count_le cycles [] u
  by_cases hm : u ∈ daemonSeen cycles []
  · simp only [List.not_mem_nil, if_false, if_pos hm, Nat.add_zero] at h
    exact h
  · simp only [List.not_mem_nil, if_false, if_neg hm, Nat.add_zero] at h
    omega

/- ### Claim C10 -/

/-- C10: a url is inserted into `seen_urls` at collection time, before the
emission loop runs; so when an iteration dies after the record was collected
but before emission, the iteration emits nothing, the url stays marked seen,
and the record is never emitted for the rest of the run. -/
theorem C10_interrupted_cycle_loses_record
    (pre post : List CycleInput) (srcs : List (String × List HistRow)) (k : Nat) (v : Visit)
    (hv : v ∈ (collectSources (srcs.take k) (daemonSeen pre [])).1) :
    (runCycle ⟨srcs, some k⟩ (daemonSeen pre [])).1 = [] ∧
    v.url ∈ (runCycle ⟨srcs, some k⟩ (daemonSeen pre [])).2 ∧
    countUrl v.url (runDaemon (pre ++ ⟨srcs, some k⟩ :: post) []) = 0 := by
  have hcount := collectSources_count (srcs.take k) (daemonSeen pre []) v.url
  have hpos : 0 < countUrl v.url (collectSources (srcs.take k) (daemonSeen pre [])).1 :=
    mem_countUrl_pos v _ hv
  have hnotin : v.url ∉ daemonSeen pre [] := by
    intro hin
    rw [if_pos hin] at hcount
    by_cases h2 : v.url ∈ (collectSources (srcs.take k) (daemonSeen pre [])).2
    · rw [if_pos h2] at hcount; omega
    · rw [if_neg h2] at hcount; omega
  have hin2 : v.url ∈ (collectSources (srcs.take k) (daemonSeen pre [])).2 := by
    by_cases h2 : v.url ∈ (collectSources (srcs.take k) (daemonSeen pre [])).2
    · exact h2
    · rw [if_neg hnotin, if_neg h2] at hcount
      omega
  refine ⟨rfl, hin2, ?_⟩
  rw [runDaemon_append]
  have hpre := runDaemon_count_le pre [] v.url
  rw [if_neg (List.not_mem_nil v.url), if_neg hnotin, Nat.add_zero] at hpre
  have hrest : runDaemon (CycleInput.mk srcs (some k) :: post) (daemonSeen pre [])
      = runDaemon post (runCycle ⟨srcs, some k⟩ (daemonSeen pre [])).2 := by
    simp only [runDaemon]
    rfl
  rw [hrest]
  have hin2a : v.url ∈ (runCycle ⟨srcs, some k⟩ (daemonSeen pre [])).2 := hin2
  have hpost := runDaemon_count_le post (runCycle ⟨srcs, some k⟩ (daemonSeen pre [])).2 v.url
  rw [if_pos hin2a] at hpost
  simp only [countUrl, List.countP_append] at hpre hpost ⊢
  by_cases hd : v.url ∈ daemonSeen post (runCycle ⟨srcs, some k⟩ (daemonSeen pre [])).2
  · rw [if_pos hd] at hpost; omega
  · rw [if_neg hd] at hpost; omega

/-- C10 witness: one source reports `wRow`, the iteration dies after that
source was processed; the record was collected, yet the whole run (including
a later healthy cycle seeing the same row) emits nothing for its url. -/
theorem C10_interrupted_cycle_loses_record_witness :
    mkVisit "Chrome" wRow ∈
      (collectSources ([("Chrome", [wRow])].take 1) (daemonSeen [] [])).1 ∧
    countUrl (mkVisit "Chrome" wRow).url
      (runDaemon ([] ++ CycleInput.mk [("Chrome", [wRow])] (some 1)
        :: [CycleInput.mk [("Chrome", [wRow])] none]) []) = 0 :=
  ⟨by decide,
   (C10_interrupted_cycle_loses_record [] [CycleInput.mk [("Chrome", [wRow])] none]
     [("Chrome", [wRow])] 1 (mkVisit "Chrome" wRow) (by decide)).2.2⟩

/- ### Claims C3 and C6 -/

/-- C3 counterexample: when reading or querying the snapshot raises (the
copy itself succeeded), the `except` branch returns without reaching
`os.remove(temp_path)`: the scratch snapshot file is NOT deleted before the
adapter returns, against the claim. -/
theorem C3_snapshot_cleanup_counterexample :
    ¬ ((get_chrome_history ⟨false, true⟩ ([] : List ChromeUrlRow)).tempExistsAfter = false) := by
  decide

/-- C3 amended: the scratch snapshot is deleted before return on the
successful path (and none is created when the copy itself fails), but on the
path where reading or querying the snapshot raises, the adapter returns with
the snapshot still on disk: it lingers until the next invocation overwrites
it.  For each adapter, the snapshot survives the call exactly when the copy
succeeded and the query failed. -/
theorem C3_snapshot_cleanup_amended :
    ∀ (env : AdapterEnv) (cs : List ChromeUrlRow) (ss : List SafariVisitRow)
      (ms : List MozPlaceRow),
    (get_chrome_history env cs).tempExistsAfter = (!env.copyFails && env.queryFails) ∧
    (get_safari_history env ss).tempExistsAfter = (!env.copyFails && env.queryFails) ∧
    (get_firefox_history env ms).tempExistsAfter = (!env.copyFails && env.queryFails) := by
  intro env cs ss ms
  cases env with
  | mk c q =>
    cases c <;> cases q <;>
      simp [get_chrome_history, get_safari_history, get_firefox_history, runAdapterBody]

/-- C6: every read failure (copy failing, or connecting/querying the
snapshot failing) is caught inside the adapter, an error is logged, and the
adapter returns the empty row list; no exception propagates (the embedded
adapters are total functions into an outcome record). -/
theorem C6_read_failures_caught_logged_empty :
    ∀ (env : AdapterEnv) (cs : List ChromeUrlRow) (ss : List SafariVisitRow)
      (ms : List MozPlaceRow),
    env.copyFails = true ∨ env.queryFails = true →
    ((get_chrome_history env cs).rows = [] ∧ (get_chrome_history env cs).errorLogged = true) ∧
    ((get_safari_history env ss).rows = [] ∧ (get_safari_history env ss).errorLogged = true) ∧
    ((get_firefox_history env ms).rows = [] ∧ (get_firefox_history env ms).errorLogged = true) := by
  intro env cs ss ms h
  cases env with
  | mk c q =>
    cases c <;> cases q <;>
      simp_all [get_chrome_history, get_safari_history, get_firefox_history, runAdapterBody]

/-- C6 witness: a query failure on each adapter yields empty rows and a
logged error. -/
theorem C6_read_failures_caught_logged_empty_witness :
    ((AdapterEnv.mk false true).copyFails = true ∨ (AdapterEnv.mk false true).queryFails = true) ∧
    (get_chrome_history ⟨false, true⟩ ([] : List ChromeUrlRow)).rows = [] ∧
    (get_chrome_history ⟨false, true⟩ ([] : List ChromeUrlRow)).errorLogged = true ∧
    (get_safari_history ⟨false, true⟩ ([] : List SafariVisitRow)).rows = [] ∧
    (get_firefox_history ⟨false, true⟩ ([] : List MozPlaceRow)).rows = [] := by
  have h := C6_read_failures_caught_logged_empty ⟨false, true⟩ [] [] [] (Or.inr rfl)
  exact ⟨Or.inr rfl, h.1.1, h.1.2, h.2.1.1, h.2.2.1⟩

/- ### Lemmas: the CSV codec round-trips -/

theorem scanU_comma (field : List Char) (row : List (List Char))
    (rows : List (List (List Char))) (cs : List Char) :
    scanU field row rows (',' :: cs) = scanU [] (pushField field row) rows cs := by
  simp [scanU]

theorem scanU_cr (field : List Char) (row : List (List Char))
    (rows : List (List (List Char))) (cs : List Char) :
    scanU field row rows ('\r' :: cs) = scanCR (pushRow field row rows) cs := by
  simp [scanU]

theorem scanU_quote (row : List (List Char)) (rows : List (List (List Char)))
    (cs : List Char) :
    scanU [] row rows ('"' :: cs) = scanQ [] row rows cs := by
  simp [scanU]

theorem scanU_other (field : List Char) (row : List (List Char))
    (rows : List (List (List Char))) (c : Char) (cs : List Char)
    (h1 : ¬c = ',') (h2 : ¬c = '"') (h3 : ¬c = '\n') (h4 : ¬c = '\r') :
    scanU field row rows (c :: cs) = scanU (c :: field) row rows cs := by
  simp only [scanU]
  rw [if_neg h1, if_neg h3, if_neg h4, if_neg (fun hh => h2 hh.1)]

theorem scanCR_lf (rows : List (List (List Char))) (cs : List Char) :
    scanCR rows ('\n' :: cs) = scanU [] [] rows cs := by
  simp [scanCR]

theorem scanQ_quote (field : List Char) (row : List (List Char))
    (rows : List (List (List Char))) (cs : List Char) :
    scanQ field row rows ('"' :: cs) = scanQQ field row rows cs := by
  simp [scanQ]

theorem scanQ_other (field : List Char) (row : List (List Char))
    (rows : List (List (List Char))) (c : Char) (cs : List Char) (h : ¬c = '"') :
    scanQ field row rows (c :: cs) = scanQ (c :: field) row rows cs := by
  simp only [scanQ]
  rw [if_neg h]

theorem scanQQ_quote (field : List Char) (row : List (List Char))
    (rows : List (List (List Char))) (cs : List Char) :
    scanQQ field row rows ('"' :: cs) = scanQ ('"' :: field) row rows cs := by
  simp [scanQQ]

theorem scanQQ_comma (field : List Char) (row : List (List Char))
    (rows : List (List (List Char))) (cs : List Char) :
    scanQQ field row rows (',' :: cs) = scanU [] (pushField field row) rows cs := by
  simp [scanQQ]

theorem scanQQ_cr (field : List Char) (row : List (List Char))
    (rows : List (List (List Char))) (cs : List Char) :
    scanQQ field row rows ('\r' :: cs) = scanCR (pushRow field row rows) cs := by
  simp [scanQQ]

theorem specialChar_false (c : Char) (h : specialChar c = false) :
    ¬c = ',' ∧ ¬c = '"' ∧ ¬c = '\n' ∧ ¬c = '\r' := by
  have h2 := h
  simp [specialChar] at h2
  exact ⟨h2.1.1.1, h2.1.1.2, h2.1.2, h2.2⟩

theorem scanU_plain (s : List Char) (h : ∀ c ∈ s, specialChar c = false)
    (field : List Char) (row : List (List Char)) (rows : List (List (List Char)))
    (rest : List Char) :
    scanU field row rows (s ++ rest) = scanU (s.reverse ++ field) row rows rest := by
  induction s generalizing field with
  | nil => simp
  | cons c cs ih =>
    obtain ⟨h1, h2, h3, h4⟩ := specialChar_false c (h c (List.mem_cons_self c cs))
    have hcs : ∀ x ∈ cs, specialChar x = false :=
      fun x hx => h x (List.mem_cons_of_mem c hx)
    rw [List.cons_append, scanU_other field row rows c _ h1 h2 h3 h4, ih hcs (c :: field)]
    simp [List.append_assoc]

theorem scanQ_escaped (s : List Char) (field : List Char) (row : List (List Char))
    (rows : List (List (List Char))) (rest : List Char) :
    scanQ field row rows (pyReplace1 '"' ['"', '"'] s ++ '"' :: rest)
      = scanQQ (s.reverse ++ field) row rows rest := by
  induction s generalizing field with
  | nil =>
    simp only [pyReplace1, List.nil_append, List.reverse_nil]
    rw [scanQ_quote]
  | cons c cs ih =>
    simp only [pyReplace1]
    by_cases hc : c = '"'
    · subst hc
      rw [if_pos rfl, List.append_assoc]
      simp only [List.cons_append, List.nil_append]
      rw [scanQ_quote, scanQQ_quote, ih ('"' :: field)]
      simp [List.append_assoc]
    · rw [if_neg hc, List.append_assoc]
      simp only [List.cons_append, List.nil_append]
      rw [scanQ_other field row rows c _ hc, ih (c :: field)]
      simp [List.append_assoc]

theorem needsQuoting_false (s : List Char) (h : ¬needsQuoting s = true) :
    ∀ c ∈ s, specialChar c = false := by
  intro c hc
  rw [needsQuoting, List.any_eq_true] at h
  by_cases hs : specialChar c = true
  · exact absurd ⟨c, hc, hs⟩ h
  · exact Bool.not_eq_true _ ▸ (Bool.eq_false_iff.mpr hs)

theorem scanU_encF_comma (s : List Char) (row : List (List Char))
    (rows : List (List (List Char))) (rest : List Char) :
    scanU [] row rows (encodeField s ++ ',' :: rest) = scanU [] (s :: row) rows rest := by
  by_cases hq : needsQuoting s
  · simp only [encodeField, if_pos hq, List.cons_append, List.append_assoc,
      List.singleton_append]
    simp only [List.nil_append]
    rw [scanU_quote, scanQ_escaped s [] row rows (',' :: rest), List.append_nil,
      scanQQ_comma]
    simp [pushField]
  · simp only [encodeField, if_neg hq]
    rw [scanU_plain s (needsQuoting_false s hq) [] row rows (',' :: rest),
      List.append_nil, scanU_comma]
    simp [pushField]

theorem scanU_encF_crlf (s : List Char) (row : List (List Char))
    (rows : List (List (List Char))) (rest : List Char) :
    scanU [] row rows (encodeField s ++ '\r' :: '\n' :: rest)
      = scanU [] [] ((s :: row).reverse :: rows) rest := by
  by_cases hq : needsQuoting s
  · simp only [encodeField, if_pos hq, List.cons_append, List.append_assoc,
      List.singleton_append]
    simp only [List.nil_append]
    rw [scanU_quote, scanQ_escaped s [] row rows ('\r' :: '\n' :: rest), List.append_nil,
      scanQQ_cr, scanCR_lf]
    simp [pushRow, pushField]
  · simp only [encodeField, if_neg hq]
    rw [scanU_plain s (needsQuoting_false s hq) [] row rows ('\r' :: '\n' :: rest),
      List.append_nil, scanU_cr, scanCR_lf]
    simp [pushRow, pushField]

theorem scanU_record (fs : List (List Char)) (row : List (List Char))
    (rows : List (List (List Char))) (rest : List Char) (hne : fs ≠ []) :
    scanU [] row rows (commaJoin (fs.map encodeField) ++ '\r' :: '\n' :: rest)
      = scanU [] [] ((row.reverse ++ fs) :: rows) rest := by
  induction fs generalizing row with
  | nil => cases hne rfl
  | cons f gs ih =>
    cases gs with
    | nil =>
      simp only [List.map_cons, List.map_nil, commaJoin]
      rw [scanU_encF_crlf]
      simp [List.reverse_cons]
    | cons g gs2 =>
      simp only [List.map_cons, commaJoin]
      rw [List.append_assoc, List.cons_append, scanU_encF_comma, ← List.map_cons,
        ih (f :: row) (List.cons_ne_nil g gs2)]
      simp [List.reverse_cons, List.append_assoc]

theorem scanU_file (rrows : List (List (List Char))) (h : ∀ r ∈ rrows, r ≠ [])
    (rowsAcc : List (List (List Char))) :
    scanU [] [] rowsAcc ((rrows.map encodeRecordLine).flatten)
      = rowsAcc.reverse ++ rrows := by
  induction rrows generalizing rowsAcc with
  | nil => simp [scanU]
  | cons r rs ih =>
    simp only [List.map_cons, List.flatten_cons, encodeRecordLine]
    rw [List.append_assoc]
    simp only [List.cons_append, List.nil_append]
    rw [scanU_record r [] rowsAcc _ (h r (List.mem_cons_self r rs))]
    simp only [List.reverse_nil, List.nil_append]
    rw [ih (fun x hx => h x (List.mem_cons_of_mem r hx)) (r :: rowsAcc)]
    simp

theorem stringMk_data (s : String) : String.mk s.data = s := rfl

theorem csvParse_renderCsv (rows : List (List String)) (h : ∀ r ∈ rows, r ≠ []) :
    csvParse (renderCsv rows) = rows := by
  rw [csvParse, csvParseChars, renderCsv]
  have hm : (rows.map (fun r => encodeRecordLine (r.map String.data)))
      = ((rows.map (fun r => r.map String.data)).map encodeRecordLine) := by
    simp [List.map_map]
  rw [hm, scanU_file _ ?hne []]
  case hne =>
    intro r hr
    simp only [List.mem_map] at hr
    obtain ⟨r0, hr0, rfl⟩ := hr
    simpa using h r0 hr0
  simp [List.map_map, Function.comp_def, stringMk_data]

/- ### Lemmas: the emission sink -/

theorem reconsRow_id (r : List String) (h : r.length = 6) : reconsRow csvHeader r = r := by
  rcases r with _ | ⟨a, _ | ⟨b, _ | ⟨c, _ | ⟨d, _ | ⟨e, _ | ⟨f, _ | ⟨g, r⟩⟩⟩⟩⟩⟩⟩ <;>
    first
      | rfl
      | simp at h

theorem serRow_length (now : String) (v : Visit) : (serRow now v).length = 6 := rfl

theorem serRow_ne_nil (now : String) (v : Visit) : serRow now v ≠ [] := by
  simp [serRow]

theorem rows6_ne_nil (rows : List (List String)) (h : ∀ r ∈ rows, r.length = 6) :
    ∀ r ∈ csvHeader :: rows, r ≠ [] := by
  intro r hr
  rcases List.mem_cons.mp hr with rfl | hr
  · simp [csvHeader]
  · have h6 := h r hr
    intro hnil
    rw [hnil] at h6
    simp at h6

theorem rewrittenRows_render (now : String) (v : Visit) (rows : List (List String))
    (h : ∀ r ∈ rows, r.length = 6) :
    rewrittenRows now v (renderCsv (csvHeader :: rows))
      = csvHeader :: serRow now v :: rows := by
  have hp : csvParse (renderCsv (csvHeader :: rows)) = csvHeader :: rows :=
    csvParse_renderCsv _ (rows6_ne_nil rows h)
  have hmap : rows.map (reconsRow csvHeader) = rows := by
    rw [show rows.map (reconsRow csvHeader) = rows.map id from
      List.map_congr_left (fun a ha => reconsRow_id a (h a ha)), List.map_id]
  simp only [rewrittenRows, hp, hmap]

theorem log_to_csv_render (now : String) (v : Visit) (rows : List (List String))
    (h : ∀ r ∈ rows, r.length = 6) :
    log_to_csv now v (renderCsv (csvHeader :: rows))
      = renderCsv (csvHeader :: serRow now v :: rows) := by
  rw [log_to_csv, rewrittenRows_render now v rows h]

theorem dictRows_render (rows : List (List String)) (h : ∀ r ∈ rows, r.length = 6) :
    dictRows (renderCsv (csvHeader :: rows)) = rows := by
  rw [dictRows, csvParse_renderCsv _ (rows6_ne_nil rows h), List.drop_one, List.tail_cons]

/- ### Claim C2 -/

/-- C2: after a successful emission into a well-formed durable log (header
plus six-field data rows), the first data row read back is the serialized
new record, and every prior data row follows it unchanged and in the same
relative order. -/
theorem C2_prepend_invariant (now : String) (v : Visit) (rows : List (List String))
    (h : ∀ r ∈ rows, r.length = 6) :
    dictRows (log_to_csv now v (renderCsv (csvHeader :: rows)))
      = serRow now v :: rows := by
  rw [log_to_csv_render now v rows h]
  exact dictRows_render (serRow now v :: rows)
    (fun r hr => by
      rcases List.mem_cons.mp hr with rfl | hr
      · exact serRow_length now v
      · exact h r hr)

/-- C2 witness: emitting `wVisit` onto a log holding one data row. -/
theorem C2_prepend_invariant_witness :
    (∀ r ∈ [wDataRow], r.length = 6) ∧
    dictRows (log_to_csv "08:00" wVisit (renderCsv (csvHeader :: [wDataRow])))
      = serRow "08:00" wVisit :: [wDataRow] :=
  ⟨by decide, C2_prepend_invariant "08:00" wVisit [wDataRow] (by decide)⟩

/- ### Claim C8 -/

theorem emitAllCsv_cons (nv : String × Visit) (rest : List (String × Visit))
    (file : List Char) :
    emitAllCsv (nv :: rest) file = emitAllCsv rest (log_to_csv nv.1 nv.2 file) := rfl

/-- C8: writing any sequence of records through `log_to_csv` starting from
the freshly initialized log and then reading the log back recovers exactly
the serialized records (sanitization applied at write time), most recent
first; in particular the read-then-rewrite of existing rows on each emission
preserves every prior record's field values. -/
theorem C8_write_read_round_trip (vs : List (String × Visit)) :
    dictRows (emitAllCsv vs init_csv_file)
      = (vs.map fun nv => serRow nv.1 nv.2).reverse := by
  suffices hgen : ∀ (ws : List (String × Visit)) (rows : List (List String)),
      (∀ r ∈ rows, r.length = 6) →
      dictRows (emitAllCsv ws (renderCsv (csvHeader :: rows)))
        = (ws.map fun nv => serRow nv.1 nv.2).reverse ++ rows by
    have := hgen vs [] (by intro r hr; cases hr)
    simpa [init_csv_file] using this
  intro ws
  induction ws with
  | nil =>
    intro rows h
    simpa [emitAllCsv] using dictRows_render rows h
  | cons nv rest ih =>
    intro rows h
    rw [emitAllCsv_cons, log_to_csv_render nv.1 nv.2 rows h]
    rw [ih (serRow nv.1 nv.2 :: rows)
      (fun r hr => by
        rcases List.mem_cons.mp hr with rfl | hr
        · exact serRow_length nv.1 nv.2
        · exact h r hr)]
    simp [List.append_assoc]

/- ### Claim C4 -/

theorem emitList_cons (x : Option WriteFailure × String × Visit)
    (xs : List (Option WriteFailure × String × Visit)) (st : SinkState) :
    emitList (x :: xs) st = emitList xs (emitOne x.1 x.2.1 x.2.2 st) := rfl

theorem emitOne_opLog_append (fp : Option WriteFailure) (now : String) (v : Visit)
    (st : SinkState) :
    ∃ tail, (emitOne fp now v st).opLog = st.opLog ++ (announceLine v :: tail) := by
  cases fp with
  | none => exact ⟨[], rfl⟩
  | some f => exact ⟨[csvErrorLine], rfl⟩

theorem emitList_opLog_prefix (xs : List (Option WriteFailure × String × Visit))
    (st : SinkState) :
    ∃ tail, (emitList xs st).opLog = st.opLog ++ tail := by
  induction xs generalizing st with
  | nil => exact ⟨[], (List.append_nil _).symm⟩
  | cons x ys ih =>
    rw [emitList_cons]
    obtain ⟨t1, h1⟩ := emitOne_opLog_append x.1 x.2.1 x.2.2 st
    obtain ⟨t2, h2⟩ := ih (emitOne x.1 x.2.1 x.2.2 st)
    exact ⟨(announceLine x.2.2 :: t1) ++ t2, by rw [h2, h1, List.append_assoc]⟩

theorem emitList_announce_mem (xs : List (Option WriteFailure × String × Visit))
    (st : SinkState) (x : Option WriteFailure × String × Visit) (hx : x ∈ xs) :
    announceLine x.2.2 ∈ (emitList xs st).opLog := by
  induction xs generalizing st with
  | nil => cases hx
  | cons y ys ih =>
    rw [emitList_cons]
    rcases List.mem_cons.mp hx with rfl | hx2
    · obtain ⟨tail, ht⟩ := emitList_opLog_prefix ys (emitOne x.1 x.2.1 x.2.2 st)
      rw [ht]
      obtain ⟨t1, h1⟩ := emitOne_opLog_append x.1 x.2.1 x.2.2 st
      rw [h1]
      exact List.mem_append_left _
        (List.mem_append_right _ (List.mem_cons_self _ _))
    · exact ih _ hx2

set_option maxHeartbeats 1600000 in
/-- C4 counterexample: a failure striking after `open(..., 'w')` truncated
the file and only the header was rewritten leaves the durable log CHANGED
(the prior data row is gone), against part (2) of the claim. -/
theorem C4_write_failure_counterexample :
    ¬ ((emitOne (some (WriteFailure.afterRows 1)) "08:00" wVisit
        ⟨[], renderCsv [csvHeader, wDataRow]⟩).csvFile
      = renderCsv [csvHeader, wDataRow]) := by
  decide

/-- C4 (amended): when the durable-log write for a record raises, (1) the
operational log already holds the record's announcement line (followed by
the logged write error), (2) the durable log is unchanged provided the
failure struck before the reopen-for-writing truncated the file (during the
read of existing rows, or at the reopen itself) - a failure during the
rewrite may leave the log truncated - and (3) the loop proceeds: every
record of the emission loop still gets its announcement line regardless of
write failures. -/
theorem C4_write_failure_amended (f : WriteFailure) (now : String) (v : Visit)
    (st : SinkState) :
    (emitOne (some f) now v st).opLog = st.opLog ++ [announceLine v, csvErrorLine] ∧
    ((f = WriteFailure.duringRead ∨ f = WriteFailure.atOpenWrite) →
      (emitOne (some f) now v st).csvFile = st.csvFile) ∧
    (∀ xs : List (Option WriteFailure × String × Visit), ∀ x ∈ xs,
      announceLine x.2.2 ∈ (emitList xs st).opLog) := by
  refine ⟨rfl, ?_, fun xs x hx => emitList_announce_mem xs st x hx⟩
  rintro (rfl | rfl) <;> rfl

/-- C4 witness: a read-phase failure on a fresh log. -/
theorem C4_write_failure_amended_witness :
    (WriteFailure.duringRead = WriteFailure.duringRead ∨
      WriteFailure.duringRead = WriteFailure.atOpenWrite) ∧
    (emitOne (some WriteFailure.duringRead) "t0" wVisit ⟨[], init_csv_file⟩).opLog
      = [] ++ [announceLine wVisit, csvErrorLine] ∧
    (emitOne (some WriteFailure.duringRead) "t0" wVisit ⟨[], init_csv_file⟩).csvFile
      = init_csv_file ∧
    ((some WriteFailure.duringRead, "t0", wVisit)
        ∈ [(some WriteFailure.duringRead, "t0", wVisit)]) ∧
    announceLine wVisit
      ∈ (emitList [(some WriteFailure.duringRead, "t0", wVisit)]
          ⟨[], init_csv_file⟩).opLog := by
  have h := C4_write_failure_amended WriteFailure.duringRead "t0" wVisit ⟨[], init_csv_file⟩
  refine ⟨Or.inl rfl, ?_, ?_, ?_, ?_⟩
  · exact h.1
  · exact h.2.1 (Or.inl rfl)
  · exact List.mem_cons_self _ _
  · exact h.2.2 [(some WriteFailure.duringRead, "t0", wVisit)]
      (some WriteFailure.duringRead, "t0", wVisit) (List.mem_cons_self _ _)
